import Mathlib

/-!
Verification of the Java language-server adapter (crates/languages/src/java.rs).

The adapter resolves the latest JDT-LS release from a milestone index page,
installs the JRE runtime and the server archive into a container directory
guarded by marker-path existence checks, and builds the launch command line.

Shallow embedding conventions:
* Rust String / PathBuf are modelled as Lean String; PathBuf.join with a
  relative right-hand side is string concatenation with a slash.
* The regex scan of the milestone index page is abstracted to its output, the
  list of captured (major, minor, patch) triples; each capture is a decimal
  digit string, modelled by its numeric value.  Likewise the download-link
  regex on a version detail page is abstracted to its Option result.
* A Rust panic (out-of-bounds indexing, Option unwrap on None) is the
  RustResult.panicked outcome, distinct from an error returned to the caller.
* Rust byte slicing s[10..] is char-level drop: every character produced by
  the key builder is ASCII, so bytes and chars coincide.
* Rust Vec sort is ascending by the String order; for a linear order the
  sorted permutation of a list is unique, so insertion sort models it exactly.
* The filesystem is a record of existing paths and written files; archive
  extraction adds the archive entry paths under the container directory.
* Network traffic is abstracted to a request counter; HTTP transport errors
  are out of scope of the claims treated here.
-/

/-- Outcome of a Rust computation: a value, or a panic that unwinds past the
caller (never a returned error value). -/
inductive RustResult (α : Type) where
  | ok : α → RustResult α
  | panicked : RustResult α
deriving DecidableEq, Repr

/-- PathBuf.join for a relative right-hand component. -/
def pathJoin (base rel : String) : String := base ++ "/" ++ rel

def JDT_MILESTONES_URL : String := "https://download.eclipse.org"

def JRE_21_MACOS_AARCH64 : String :=
  "https://corretto.aws/downloads/latest/amazon-corretto-21-aarch64-macos-jdk.tar.gz"

def JRE_21_MACOS_X64 : String :=
  "https://corretto.aws/downloads/latest/amazon-corretto-21-x64-macos-jdk.tar.gz"

def JAVA_HOME : String := "amazon-corretto-21.jdk/Contents/Home"

/-- The versioned launcher-jar path that fetch_server_binary tests for and
that arguments embeds (inlined twice in the source). -/
def LAUNCHER_JAR : String :=
  "plugins/org.eclipse.equinox.launcher_1.6.700.v20231214-2017.jar"

/-- lsp::LanguageServerBinary restricted to the fields the adapter sets. -/
structure LanguageServerBinary where
  path : String
  arguments : List String
  env : Option (List (String × String))
deriving DecidableEq, Repr

/-- fn java(container_dir: &PathBuf) -> PathBuf. -/
def java (container_dir : String) : String :=
  pathJoin container_dir "amazon-corretto-21.jdk/Contents/Home/bin/java"

/-- fn config(container_dir: &PathBuf) -> String; ARCH is passed explicitly.
The unknown-architecture arm returns the empty string, as in the source. -/
def config (container_dir arch : String) : String :=
  match arch with
  | "aarch64" => pathJoin container_dir "config_mac"
  | "x86_64" => pathJoin container_dir "config_mac_arm"
  | _ => ""

/-- str::trim: strip whitespace characters from both ends. -/
def strTrim (s : String) : String :=
  String.mk (((s.data.dropWhile Char.isWhitespace).reverse.dropWhile Char.isWhitespace).reverse)

/-- fn arguments(container_dir: &PathBuf) -> Vec of OsString; ARCH (read by
config) is passed explicitly.  The jar path goes through str trim as in the
source. -/
def arguments (container_dir arch : String) : List String :=
  let jar := strTrim (pathJoin container_dir LAUNCHER_JAR)
  ["-jar",
   jar,
   "-Declipse.application=org.eclipse.jdt.ls.core.id1",
   "-Dosgi.bundles.defaultStartLevel=4",
   "-Dosgi.checkConfiguration=true",
   "-Declipse.product=org.eclipse.jdt.ls.core.product",
   "-Dosgi.sharedConfiguration.area.readOnly=true",
   "-Dosgi.configuration.cascaded=true",
   "-Xmx1G",
   "--add-modules=ALL-SYSTEM",
   "--add-opens java.base/java.util=ALL-UNNAMED",
   "--add-opens java.base/java.lang=ALL-UNNAMED",
   "-configuration",
   config container_dir arch,
   "-data",
   "."]

/-- Rust format spec 0>3 applied to a capture string: left-pad with zeros to
width at least three (longer strings are kept whole). -/
def pad3 (s : String) : String := String.mk (List.replicate (3 - s.length) '0') ++ s

/-- The dotted version string rebuilt from the captures. -/
def dotted (major minor patch : Nat) : String :=
  toString major ++ "." ++ toString minor ++ "." ++ toString patch

/-- The sortable key built for each captured triple: the three padded
components, a hyphen, then the dotted form. -/
def mkKey (major minor patch : Nat) : String :=
  pad3 (toString major) ++ pad3 (toString minor) ++ pad3 (toString patch)
    ++ "-" ++ dotted major minor patch

/-- Rust byte slice s[n..] on ASCII content, at char granularity. -/
def strDrop (s : String) (n : Nat) : String := String.mk (s.data.drop n)

/-- Boolean lexicographic comparison of char lists, the order Rust uses on
the (ASCII) key strings. -/
def lexLeb : List Char → List Char → Bool
  | [], _ => true
  | _ :: _, [] => false
  | a :: as, b :: bs => if a < b then true else if b < a then false else lexLeb as bs

/-- The comparison the sort in fetch_latest_server_version runs on key
strings; proved below to agree with the standard order on strings. -/
def strLeb (a b : String) : Bool := lexLeb a.data b.data

instance strLebDecRel : DecidableRel (fun a b : String => strLeb a b = true) :=
  fun a b => Bool.decEq (strLeb a b) true

/-- fetch_latest_server_version, applied to the triples the version regex
extracted from the index page body.  It builds a key per triple, sorts
ascending, and slices the last key from index 10.  On an empty capture list,
versions.len() - 1 underflows and the indexing panics. -/
def fetch_latest_server_version (triples : List (Nat × Nat × Nat)) : RustResult String :=
  let versions := triples.map (fun t => mkKey t.1 t.2.1 t.2.2)
  let sorted := List.insertionSort (fun a b => strLeb a b = true) versions
  match sorted.getLast? with
  | some k => .ok (strDrop k 10)
  | none => .panicked

/-- Strict numeric (major, minor, patch) ordering on version triples. -/
def vlt (a b : Nat × Nat × Nat) : Prop :=
  a.1 < b.1 ∨ (a.1 = b.1 ∧ (a.2.1 < b.2.1 ∨ (a.2.1 = b.2.1 ∧ a.2.2 < b.2.2)))

instance (a b : Nat × Nat × Nat) : Decidable (vlt a b) := by
  unfold vlt; infer_instance

/-- Reflexive closure of vlt, with component-wise equality. -/
def vle (a b : Nat × Nat × Nat) : Prop :=
  vlt a b ∨ (a.1 = b.1 ∧ a.2.1 = b.2.1 ∧ a.2.2 = b.2.2)

/-- Binary maximum under vlt. -/
def maxT (a b : Nat × Nat × Nat) : Nat × Nat × Nat := if vlt a b then b else a

/-- Maximum of a capture list under numeric triple ordering. -/
def maxTriple : List (Nat × Nat × Nat) → Nat × Nat × Nat
  | [] => (0, 0, 0)
  | t :: ts => ts.foldl maxT t

/-- The three ASCII digits of a component bounded by 999. -/
def digits3 (n : Nat) : List Char :=
  [Nat.digitChar (n / 100), Nat.digitChar (n / 10 % 10), Nat.digitChar (n % 10)]

/-- The on-disk state the installer reads and writes: the set of existing
paths, and the contents of files written through std::fs::write. -/
structure FS where
  paths : List String
  files : List (String × String)
deriving DecidableEq, Repr

/-- Path::exists. -/
def FS.pathExists (fs : FS) (p : String) : Bool := fs.paths.contains p

/-- Archive::unpack into a directory: the archive entry paths appear. -/
def FS.addPaths (fs : FS) (ps : List String) : FS :=
  { fs with paths := fs.paths ++ ps }

/-- std::fs::write: the path exists afterwards and holds the contents. -/
def FS.writeFile (fs : FS) (p c : String) : FS :=
  { paths := fs.paths ++ [p], files := fs.files ++ [(p, c)] }

/-- Contents of the last write to a path, if any. -/
def FS.readFile? (fs : FS) (p : String) : Option String :=
  (fs.files.reverse.find? (fun e => e.1 == p)).map (fun e => e.2)

/-- What fetch_server_binary extracts from the remote side, abstracted to the
adapter's view of it: the Option result of matching the download-link regex
on the version detail page body, and the entry paths (relative to the target
directory) of the two gzipped tar archives.  Transport succeeds in this
model; every get call is counted. -/
structure InstallEnv where
  buildLink : Option String
  jreArchivePaths : List String
  serverArchivePaths : List String
deriving DecidableEq, Repr

/-- The runtime download URL selected by matching on ARCH; the wildcard arm
yields the empty string, as in the source. -/
def jre21_url (arch : String) : String :=
  match arch with
  | "aarch64" => JRE_21_MACOS_AARCH64
  | "x86_64" => JRE_21_MACOS_X64
  | _ => ""

/-- Observable outcome of one fetch_server_binary call. -/
structure InstallOutcome where
  result : RustResult LanguageServerBinary
  fs : FS
  requests : Nat
deriving DecidableEq, Repr

/-- fetch_server_binary: unless the JDK home marker exists, download (one
request) and unpack the JRE archive; unless the launcher-jar marker exists,
download the version detail page (one request), match the download-link
regex — Option unwrap panics when it has no match — then download the server
archive (one request), unpack it and write the resolved version to
version.txt; finally build the launch spec from the container directory. -/
def fetch_server_binary (jdtls_version container_dir arch : String)
    (env : InstallEnv) (fs : FS) : InstallOutcome :=
  let _jre21_url := jre21_url arch
  let step1 :=
    if fs.pathExists (pathJoin container_dir JAVA_HOME) then (fs, 0)
    else (fs.addPaths (env.jreArchivePaths.map (pathJoin container_dir)), 1)
  let fs1 := step1.1
  let req1 := step1.2
  if fs1.pathExists (pathJoin container_dir LAUNCHER_JAR) then
    { result := RustResult.ok
        { path := java container_dir
          arguments := arguments container_dir arch
          env := none }
      fs := fs1
      requests := req1 }
  else
    match env.buildLink with
    | none => { result := RustResult.panicked, fs := fs1, requests := req1 + 1 }
    | some _build =>
      let fs2 := (fs1.addPaths (env.serverArchivePaths.map (pathJoin container_dir))).writeFile
        (pathJoin container_dir "version.txt") jdtls_version
      { result := RustResult.ok
          { path := java container_dir
            arguments := arguments container_dir arch
            env := none }
        fs := fs2
        requests := req1 + 2 }

/-- cached_server_binary: unconditionally Some; the filesystem argument
models the ambient on-disk state, which the source never consults. -/
def cached_server_binary (container_dir arch : String) (_fs : FS) :
    Option LanguageServerBinary :=
  some { path := java container_dir
         arguments := arguments container_dir arch
         env := none }

/-! ### The boolean comparator agrees with the standard string order -/

theorem lexLeb_iff_not_lex :
    ∀ l₁ l₂ : List Char, lexLeb l₁ l₂ = true ↔ ¬ List.Lex (· < ·) l₂ l₁ := by
  intro l₁
  induction l₁ with
  | nil =>
    intro l₂
    simp only [lexLeb, true_iff]
    exact List.Lex.not_nil_right _ _
  | cons a as ih =>
    intro l₂
    cases l₂ with
    | nil =>
      simp only [lexLeb, Bool.false_eq_true, false_iff, not_not]
      exact List.Lex.nil
    | cons b bs =>
      simp only [lexLeb]
      rcases lt_trichotomy a b with h | h | h
      · rw [if_pos h]
        simp only [true_iff]
        intro hlex
        cases hlex with
        | rel h' => exact absurd h' (lt_asymm h)
        | cons h' => exact lt_irrefl a h
      · subst h
        rw [if_neg (lt_irrefl a), if_neg (lt_irrefl a)]
        rw [ih bs]
        constructor
        · intro hn hlex
          cases hlex with
          | rel h' => exact lt_irrefl a h'
          | cons h' => exact hn h'
        · intro hn h'
          exact hn (List.Lex.cons h')
      · rw [if_neg (lt_asymm h), if_pos h]
        simp only [Bool.false_eq_true, false_iff, not_not]
        exact List.Lex.rel h

theorem strLeb_iff_le (a b : String) : strLeb a b = true ↔ a ≤ b := by
  rw [strLeb, lexLeb_iff_not_lex]
  rw [← not_lt (α := String)]
  constructor
  · intro h hba
    exact h (String.lt_iff_toList_lt.mp hba)
  · intro h hba
    exact h (String.lt_iff_toList_lt.mpr hba)

theorem strLeb_refl (a : String) : strLeb a a = true :=
  (strLeb_iff_le a a).mpr le_rfl

instance strLebIsTotal : IsTotal String (fun a b => strLeb a b = true) := by
  constructor
  intro a b
  rcases le_total a b with h | h
  · exact Or.inl ((strLeb_iff_le a b).mpr h)
  · exact Or.inr ((strLeb_iff_le b a).mpr h)

instance strLebIsTrans : IsTrans String (fun a b => strLeb a b = true) := by
  constructor
  intro a b c hab hbc
  exact (strLeb_iff_le a c).mpr (le_trans ((strLeb_iff_le a b).mp hab) ((strLeb_iff_le b c).mp hbc))

/-! ### Digit characterisation of the padded components -/

set_option maxRecDepth 4000 in
theorem pad3_digits (n : Nat) (h : n ≤ 999) : (pad3 (toString n)).data = digits3 n := by
  have key : ∀ m : Fin 1000, (pad3 (toString m.val)).data = digits3 m.val := by decide
  exact key ⟨n, by omega⟩

theorem digitChar_lt {d e : Nat} (hd : d < 10) (he : e < 10) (h : d < e) :
    Nat.digitChar d < Nat.digitChar e := by
  have key : ∀ d e : Fin 10, d.val < e.val → Nat.digitChar d.val < Nat.digitChar e.val := by decide
  exact key ⟨d, hd⟩ ⟨e, he⟩ h

theorem digits3_lex {m n : Nat} (hm : m ≤ 999) (hn : n ≤ 999) (h : m < n) :
    List.Lex (· < ·) (digits3 m) (digits3 n) := by
  have hcases : m / 100 < n / 100 ∨
      (m / 100 = n / 100 ∧ (m / 10 % 10 < n / 10 % 10 ∨
        (m / 10 % 10 = n / 10 % 10 ∧ m % 10 < n % 10))) := by omega
  unfold digits3
  rcases hcases with h1 | ⟨h1, h2 | ⟨h2, h3⟩⟩
  · exact List.Lex.rel (digitChar_lt (by omega) (by omega) h1)
  · rw [h1]
    exact List.Lex.cons (List.Lex.rel (digitChar_lt (by omega) (by omega) h2))
  · rw [h1, h2]
    exact List.Lex.cons (List.Lex.cons (List.Lex.rel (digitChar_lt (by omega) (by omega) h3)))

theorem digits3_length (n : Nat) : (digits3 n).length = 3 := rfl

/-! ### Lexicographic comparison across equal-length blocks -/

theorem lex_append_left :
    ∀ u v x y : List Char, u.length = v.length →
      List.Lex (· < ·) u v → List.Lex (· < ·) (u ++ x) (v ++ y) := by
  intro u
  induction u with
  | nil =>
    intro v x y hlen hlex
    cases v with
    | nil => cases hlex
    | cons b bs => simp at hlen
  | cons a as ih =>
    intro v x y hlen hlex
    cases v with
    | nil => simp at hlen
    | cons b bs =>
      cases hlex with
      | rel h => exact List.Lex.rel h
      | cons h => exact List.Lex.cons (ih bs x y (by simpa using hlen) h)

theorem lex_append_same :
    ∀ u x y : List Char, List.Lex (· < ·) x y → List.Lex (· < ·) (u ++ x) (u ++ y) := by
  intro u
  induction u with
  | nil => intro x y h; simpa using h
  | cons a as ih => intro x y h; exact List.Lex.cons (ih x y h)

/-! ### Keys of bounded triples decompose into digit blocks -/

theorem mkKey_data (M m p : Nat) (hM : M ≤ 999) (hm : m ≤ 999) (hp : p ≤ 999) :
    (mkKey M m p).data =
      digits3 M ++ (digits3 m ++ (digits3 p ++ ('-' :: (dotted M m p).data))) := by
  unfold mkKey
  simp only [String.data_append, pad3_digits M hM, pad3_digits m hm, pad3_digits p hp,
    List.append_assoc]
  rfl

theorem strDrop_mkKey (M m p : Nat) (hM : M ≤ 999) (hm : m ≤ 999) (hp : p ≤ 999) :
    strDrop (mkKey M m p) 10 = dotted M m p := by
  unfold strDrop
  rw [mkKey_data M m p hM hm hp]
  rfl

theorem mkKey_lt_of_vlt {t u : Nat × Nat × Nat}
    (ht1 : t.1 ≤ 999) (ht2 : t.2.1 ≤ 999) (ht3 : t.2.2 ≤ 999)
    (hu1 : u.1 ≤ 999) (hu2 : u.2.1 ≤ 999) (hu3 : u.2.2 ≤ 999)
    (h : vlt t u) : mkKey t.1 t.2.1 t.2.2 < mkKey u.1 u.2.1 u.2.2 := by
  rw [String.lt_iff_toList_lt]
  show List.Lex (· < ·) (mkKey t.1 t.2.1 t.2.2).data (mkKey u.1 u.2.1 u.2.2).data
  rw [mkKey_data t.1 t.2.1 t.2.2 ht1 ht2 ht3, mkKey_data u.1 u.2.1 u.2.2 hu1 hu2 hu3]
  rcases h with h1 | ⟨h1, h2 | ⟨h2, h3⟩⟩
  · exact lex_append_left _ _ _ _ (by rw [digits3_length, digits3_length]) (digits3_lex ht1 hu1 h1)
  · rw [h1]
    exact lex_append_same _ _ _
      (lex_append_left _ _ _ _ (by rw [digits3_length, digits3_length]) (digits3_lex ht2 hu2 h2))
  · rw [h1, h2]
    exact lex_append_same _ _ _ (lex_append_same _ _ _
      (lex_append_left _ _ _ _ (by rw [digits3_length, digits3_length]) (digits3_lex ht3 hu3 h3)))

theorem strLeb_mkKey_of_vle {t u : Nat × Nat × Nat}
    (ht1 : t.1 ≤ 999) (ht2 : t.2.1 ≤ 999) (ht3 : t.2.2 ≤ 999)
    (hu1 : u.1 ≤ 999) (hu2 : u.2.1 ≤ 999) (hu3 : u.2.2 ≤ 999)
    (h : vle t u) : strLeb (mkKey t.1 t.2.1 t.2.2) (mkKey u.1 u.2.1 u.2.2) = true := by
  rcases h with h | ⟨h1, h2, h3⟩
  · exact (strLeb_iff_le _ _).mpr (le_of_lt (mkKey_lt_of_vlt ht1 ht2 ht3 hu1 hu2 hu3 h))
  · rw [h1, h2, h3]
    exact strLeb_refl _

/-! ### The numeric maximum of the capture list -/

theorem vle_refl (a : Nat × Nat × Nat) : vle a a := Or.inr ⟨rfl, rfl, rfl⟩

theorem vle_trans {a b c : Nat × Nat × Nat} (h1 : vle a b) (h2 : vle b c) : vle a c := by
  obtain ⟨a1, a2, a3⟩ := a
  obtain ⟨b1, b2, b3⟩ := b
  obtain ⟨c1, c2, c3⟩ := c
  dsimp only [vle, vlt] at h1 h2 ⊢
  omega

theorem vle_antisymm {a b : Nat × Nat × Nat} (h1 : vle a b) (h2 : vle b a) : a = b := by
  obtain ⟨a1, a2, a3⟩ := a
  obtain ⟨b1, b2, b3⟩ := b
  dsimp only [vle, vlt] at h1 h2
  simp only [Prod.mk.injEq]
  omega

theorem maxT_cases (a b : Nat × Nat × Nat) : maxT a b = a ∨ maxT a b = b := by
  by_cases h : vlt a b
  · rw [maxT, if_pos h]; exact Or.inr rfl
  · rw [maxT, if_neg h]; exact Or.inl rfl

theorem vle_maxT_left (a b : Nat × Nat × Nat) : vle a (maxT a b) := by
  by_cases h : vlt a b
  · rw [maxT, if_pos h]; exact Or.inl h
  · rw [maxT, if_neg h]; exact vle_refl a

theorem vle_maxT_right (a b : Nat × Nat × Nat) : vle b (maxT a b) := by
  by_cases h : vlt a b
  · rw [maxT, if_pos h]; exact vle_refl b
  · rw [maxT, if_neg h]
    obtain ⟨a1, a2, a3⟩ := a
    obtain ⟨b1, b2, b3⟩ := b
    dsimp only [vle, vlt] at h ⊢
    omega

theorem foldl_maxT_spec :
    ∀ (ts : List (Nat × Nat × Nat)) (a : Nat × Nat × Nat),
      (ts.foldl maxT a = a ∨ ts.foldl maxT a ∈ ts) ∧
      vle a (ts.foldl maxT a) ∧ ∀ t ∈ ts, vle t (ts.foldl maxT a) := by
  intro ts
  induction ts with
  | nil =>
    intro a
    exact ⟨Or.inl rfl, vle_refl a, by intro t ht; cases ht⟩
  | cons c cs ih =>
    intro a
    simp only [List.foldl_cons]
    obtain ⟨h1, h2, h3⟩ := ih (maxT a c)
    refine ⟨?_, vle_trans (vle_maxT_left a c) h2, ?_⟩
    · rcases h1 with h | h
      · rcases maxT_cases a c with hc | hc
        · exact Or.inl (h.trans hc)
        · exact Or.inr (by rw [h, hc]; exact List.mem_cons_self c cs)
      · exact Or.inr (List.mem_cons_of_mem c h)
    · intro t ht
      rcases List.mem_cons.mp ht with h | h
      · rw [h]
        exact vle_trans (vle_maxT_right a c) h2
      · exact h3 t h

theorem maxTriple_mem : ∀ l : List (Nat × Nat × Nat), l ≠ [] → maxTriple l ∈ l := by
  intro l hne
  match l with
  | [] => exact absurd rfl hne
  | t :: ts =>
    obtain ⟨h1, _, _⟩ := foldl_maxT_spec ts t
    show ts.foldl maxT t ∈ t :: ts
    rcases h1 with h | h
    · rw [h]; exact List.mem_cons_self t ts
    · exact List.mem_cons_of_mem t h

theorem maxTriple_dominates : ∀ (l : List (Nat × Nat × Nat)) (t : Nat × Nat × Nat),
    t ∈ l → vle t (maxTriple l) := by
  intro l t ht
  match l with
  | [] => cases ht
  | c :: cs =>
    obtain ⟨_, h2, h3⟩ := foldl_maxT_spec cs c
    show vle t (cs.foldl maxT c)
    rcases List.mem_cons.mp ht with h | h
    · rw [h]; exact h2
    · exact h3 t h

/-! ### The last element of a sorted list dominates every element -/

theorem pairwise_getLast?_dominates {α : Type} {r : α → α → Prop} (hrefl : ∀ a, r a a) :
    ∀ l : List α, l.Pairwise r → ∀ k, l.getLast? = some k → ∀ x ∈ l, r x k := by
  intro l
  induction l with
  | nil =>
    intro _ k hk
    simp at hk
  | cons a t ih =>
    intro hp k hk x hx
    cases t with
    | nil =>
      have hk' : k = a := by simpa using hk.symm
      have hx' : x = a := by simpa using hx
      rw [hk', hx']
      exact hrefl a
    | cons b t' =>
      rw [List.getLast?_cons_cons] at hk
      rcases List.mem_cons.mp hx with h | h
      · obtain ⟨ys, hys⟩ := List.getLast?_eq_some_iff.mp hk
        have hkmem : k ∈ b :: t' := by rw [hys]; simp
        rw [h]
        exact (List.pairwise_cons.mp hp).1 k hkmem
      · exact ih (List.pairwise_cons.mp hp).2 k hk x h

/-! ### Characterisation of the resolver on well-formed inputs -/

theorem fetch_eq_dotted_max (l : List (Nat × Nat × Nat)) (hne : l ≠ [])
    (hb : ∀ t ∈ l, t.1 ≤ 999 ∧ t.2.1 ≤ 999 ∧ t.2.2 ≤ 999) :
    fetch_latest_server_version l =
      RustResult.ok (dotted (maxTriple l).1 (maxTriple l).2.1 (maxTriple l).2.2) := by
  have hne' : List.insertionSort (fun a b => strLeb a b = true)
      (l.map fun t => mkKey t.1 t.2.1 t.2.2) ≠ [] := by
    intro h
    have hlen := List.length_insertionSort (fun a b => strLeb a b = true)
      (l.map fun t => mkKey t.1 t.2.1 t.2.2)
    rw [h] at hlen
    have : l.length = 0 := by simpa using hlen.symm
    exact hne (List.length_eq_zero.mp this)
  obtain ⟨k, hk⟩ : ∃ k, (List.insertionSort (fun a b => strLeb a b = true)
      (l.map fun t => mkKey t.1 t.2.1 t.2.2)).getLast? = some k := by
    cases hlast : (List.insertionSort (fun a b => strLeb a b = true)
        (l.map fun t => mkKey t.1 t.2.1 t.2.2)).getLast? with
    | none => exact absurd (List.getLast?_eq_none_iff.mp hlast) hne'
    | some k => exact ⟨k, rfl⟩
  have hfetch : fetch_latest_server_version l =
      (match (List.insertionSort (fun a b => strLeb a b = true)
          (l.map fun t => mkKey t.1 t.2.1 t.2.2)).getLast? with
       | some k => RustResult.ok (strDrop k 10)
       | none => RustResult.panicked) := rfl
  rw [hfetch, hk]
  have hperm := List.perm_insertionSort (fun a b => strLeb a b = true)
    (l.map fun t => mkKey t.1 t.2.1 t.2.2)
  have hkmem : k ∈ l.map fun t => mkKey t.1 t.2.1 t.2.2 := by
    apply hperm.mem_iff.mp
    obtain ⟨ys, hys⟩ := List.getLast?_eq_some_iff.mp hk
    rw [hys]; simp
  obtain ⟨t, htl, htk⟩ := List.mem_map.mp hkmem
  have hMmem : maxTriple l ∈ l := maxTriple_mem l hne
  obtain ⟨hM1, hM2, hM3⟩ := hb (maxTriple l) hMmem
  obtain ⟨ht1, ht2, ht3⟩ := hb t htl
  have h1 : strLeb k (mkKey (maxTriple l).1 (maxTriple l).2.1 (maxTriple l).2.2) = true := by
    rw [← htk]
    exact strLeb_mkKey_of_vle ht1 ht2 ht3 hM1 hM2 hM3 (maxTriple_dominates l t htl)
  have hMkeys : mkKey (maxTriple l).1 (maxTriple l).2.1 (maxTriple l).2.2 ∈
      List.insertionSort (fun a b => strLeb a b = true)
        (l.map fun t => mkKey t.1 t.2.1 t.2.2) :=
    hperm.mem_iff.mpr (List.mem_map.mpr ⟨maxTriple l, hMmem, rfl⟩)
  have hpw := List.sorted_insertionSort (fun a b => strLeb a b = true)
    (l.map fun t => mkKey t.1 t.2.1 t.2.2)
  have h2 : strLeb (mkKey (maxTriple l).1 (maxTriple l).2.1 (maxTriple l).2.2) k = true :=
    pairwise_getLast?_dominates strLeb_refl _ hpw k hk _ hMkeys
  have hkey : k = mkKey (maxTriple l).1 (maxTriple l).2.1 (maxTriple l).2.2 :=
    le_antisymm ((strLeb_iff_le _ _).mp h1) ((strLeb_iff_le _ _).mp h2)
  rw [hkey]
  show RustResult.ok (strDrop (mkKey (maxTriple l).1 (maxTriple l).2.1 (maxTriple l).2.2) 10) = _
  rw [strDrop_mkKey _ _ _ hM1 hM2 hM3]

theorem maxTriple_perm_eq {l l' : List (Nat × Nat × Nat)} (h : l.Perm l') (hne : l ≠ []) :
    maxTriple l' = maxTriple l := by
  have hne' : l' ≠ [] := by
    intro he
    exact hne (List.Perm.eq_nil (he ▸ h))
  apply vle_antisymm
  · exact maxTriple_dominates l _ (h.mem_iff.mpr (maxTriple_mem l' hne'))
  · exact maxTriple_dominates l' _ (h.mem_iff.mp (maxTriple_mem l hne))

/-! ### Helper facts about the filesystem model -/

theorem readFile?_writeFile (fs : FS) (p c : String) :
    (fs.writeFile p c).readFile? p = some c := by
  unfold FS.writeFile FS.readFile?
  rw [List.reverse_append]
  simp

theorem pathExists_of_mem (fs : FS) (p : String) (h : p ∈ fs.paths) :
    fs.pathExists p = true := by
  unfold FS.pathExists
  simpa using h

/-! ## The claims -/

/-- C1, amended: for every nonempty capture list in which every component is
at most 999 (three decimal digits), fetch_latest_server_version returns the
dotted form of the numeric (major, minor, patch) maximum of the extracted
triples — a triple that occurs in the list and dominates every extracted
triple — and the result is unchanged under any permutation of the list, i.e.
of the order in which the version links appear in the page body.  Without
the bound the claim fails, see the counterexample. -/
theorem c1_fetch_latest_resolves_numeric_max_bounded
    (l : List (Nat × Nat × Nat)) (hne : l ≠ [])
    (hb : ∀ t ∈ l, t.1 ≤ 999 ∧ t.2.1 ≤ 999 ∧ t.2.2 ≤ 999) :
    fetch_latest_server_version l =
      RustResult.ok (dotted (maxTriple l).1 (maxTriple l).2.1 (maxTriple l).2.2) ∧
    maxTriple l ∈ l ∧ (∀ t ∈ l, vle t (maxTriple l)) ∧
    ∀ l', l.Perm l' → fetch_latest_server_version l' = fetch_latest_server_version l := by
  refine ⟨fetch_eq_dotted_max l hne hb, maxTriple_mem l hne, maxTriple_dominates l, ?_⟩
  intro l' hp
  have hne' : l' ≠ [] := fun he => hne (List.Perm.eq_nil (he ▸ hp))
  have hb' : ∀ t ∈ l', t.1 ≤ 999 ∧ t.2.1 ≤ 999 ∧ t.2.2 ≤ 999 :=
    fun t ht => hb t (hp.mem_iff.mpr ht)
  rw [fetch_eq_dotted_max l' hne' hb', fetch_eq_dotted_max l hne hb,
    maxTriple_perm_eq hp hne]

theorem c1_witness :
    fetch_latest_server_version [(1, 9, 0), (1, 29, 0), (1, 3, 0)] = RustResult.ok "1.29.0" := by
  have h := c1_fetch_latest_resolves_numeric_max_bounded [(1, 9, 0), (1, 29, 0), (1, 3, 0)]
    (by decide) (by decide)
  exact h.1.trans (by decide)

/-- C1, counterexample to the unrestricted claim: with a component of four
digits the padded keys no longer align, and the resolver picks 1.200.0 even
though 1.1000.0 is the numeric maximum of the advertised triples. -/
theorem c1_counterexample :
    fetch_latest_server_version [(1, 1000, 0), (1, 200, 0)] = RustResult.ok "1.200.0" ∧
    vlt (1, 200, 0) (1, 1000, 0) ∧ dotted 1 1000 0 ≠ "1.200.0" := by
  refine ⟨by decide, ?_, by decide⟩
  dsimp only [vlt]
  omega

/-- C2: on an index body with no link matching the version pattern the
capture list is empty, and fetch_latest_server_version panics — the
out-of-bounds indexing versions[versions.len() - 1] — instead of returning a
version-resolution error to the caller as the specification requires. -/
theorem c2_empty_captures_panic : fetch_latest_server_version [] = RustResult.panicked := rfl

/-- C3: when both the JDK home marker and the launcher-jar marker already
exist in the container directory, fetch_server_binary performs zero network
requests and returns the same LanguageServerBinary as a fresh install into a
container with neither marker (and a detail page whose download link
matches). -/
theorem c3_reinstall_idempotent (jdtls_version container_dir arch b : String)
    (env env0 : InstallEnv) (fs fs0 : FS)
    (h1 : fs.pathExists (pathJoin container_dir JAVA_HOME) = true)
    (h2 : fs.pathExists (pathJoin container_dir LAUNCHER_JAR) = true)
    (h3 : fs0.pathExists (pathJoin container_dir JAVA_HOME) = false)
    (h4 : (fs0.addPaths (env0.jreArchivePaths.map (pathJoin container_dir))).pathExists
            (pathJoin container_dir LAUNCHER_JAR) = false)
    (h5 : env0.buildLink = some b) :
    (fetch_server_binary jdtls_version container_dir arch env fs).requests = 0 ∧
    (fetch_server_binary jdtls_version container_dir arch env fs).result =
      (fetch_server_binary jdtls_version container_dir arch env0 fs0).result := by
  unfold fetch_server_binary
  simp [h1, h2, h3, h4, h5]

theorem c3_witness :
    (fetch_server_binary "1.29.0" "c" "aarch64" ⟨none, [], []⟩
        ⟨[pathJoin "c" JAVA_HOME, pathJoin "c" LAUNCHER_JAR], []⟩).requests = 0 ∧
    (fetch_server_binary "1.29.0" "c" "aarch64" ⟨none, [], []⟩
        ⟨[pathJoin "c" JAVA_HOME, pathJoin "c" LAUNCHER_JAR], []⟩).result =
      (fetch_server_binary "1.29.0" "c" "aarch64" ⟨some "x", [], []⟩ ⟨[], []⟩).result :=
  c3_reinstall_idempotent "1.29.0" "c" "aarch64" "x" ⟨none, [], []⟩ ⟨some "x", [], []⟩
    ⟨[pathJoin "c" JAVA_HOME, pathJoin "c" LAUNCHER_JAR], []⟩ ⟨[], []⟩
    (by decide) (by decide) (by decide) (by decide) rfl

/-- C4: for an architecture outside the supported set, the artifact-locating
arm of fetch_server_binary selects the empty string as a download URL and
config returns the empty string as the configuration path: the code produces
the empty values the specification forbids instead of an unsupported-platform
error. -/
theorem c4_unknown_arch_yields_empty (container_dir arch : String)
    (h1 : arch ≠ "aarch64") (h2 : arch ≠ "x86_64") :
    jre21_url arch = "" ∧ config container_dir arch = "" := by
  constructor
  · unfold jre21_url
    split <;> simp_all
  · unfold config
    split <;> simp_all

theorem c4_witness : jre21_url "riscv64" = "" ∧ config "c" "riscv64" = "" :=
  c4_unknown_arch_yields_empty "c" "riscv64" (by decide) (by decide)

/-- C5: when the launcher-jar marker is absent and the download-link regex
has no match on the version detail page, fetch_server_binary panics — the
Option unwrap on the regex captures — instead of returning an
artifact-not-found error to the caller as the specification requires. -/
theorem c5_missing_download_link_panics (jdtls_version container_dir arch : String)
    (env : InstallEnv) (fs : FS)
    (hjar : (if fs.pathExists (pathJoin container_dir JAVA_HOME) then fs
             else fs.addPaths (env.jreArchivePaths.map (pathJoin container_dir))).pathExists
              (pathJoin container_dir LAUNCHER_JAR) = false)
    (hlink : env.buildLink = none) :
    (fetch_server_binary jdtls_version container_dir arch env fs).result =
      RustResult.panicked := by
  unfold fetch_server_binary
  by_cases hjava : fs.pathExists (pathJoin container_dir JAVA_HOME) = true
  · rw [if_pos hjava] at hjar
    simp [hjava, hjar, hlink]
  · rw [if_neg hjava] at hjar
    simp [hjava, hjar, hlink]

theorem c5_witness :
    (fetch_server_binary "1.29.0" "c" "aarch64" ⟨none, [], []⟩ ⟨[], []⟩).result =
      RustResult.panicked :=
  c5_missing_download_link_panics "1.29.0" "c" "aarch64" ⟨none, [], []⟩ ⟨[], []⟩
    (by decide) rfl

/-- C6, amended: for every container directory whose joined launcher-jar path
carries no leading or trailing whitespace (the source passes the jar path
through str trim), the launch spec's executable is exactly the JDK home's
bin/java under the container directory, and the second argument (index 1) is
the full launcher-jar path under the container directory.  Without the
whitespace proviso the second part fails, see the counterexample. -/
theorem c6_launch_paths (container_dir arch : String)
    (hws : strTrim (pathJoin container_dir LAUNCHER_JAR) = pathJoin container_dir LAUNCHER_JAR) :
    java container_dir = pathJoin container_dir JAVA_HOME ++ "/bin/java" ∧
    (arguments container_dir arch)[1]? = some (pathJoin container_dir LAUNCHER_JAR) := by
  constructor
  · apply String.ext
    simp [java, pathJoin, JAVA_HOME, String.data_append]
  · show some (strTrim (pathJoin container_dir LAUNCHER_JAR)) = _
    rw [hws]

theorem c6_witness :
    java "c" = pathJoin "c" JAVA_HOME ++ "/bin/java" ∧
    (arguments "c" "aarch64")[1]? = some (pathJoin "c" LAUNCHER_JAR) :=
  c6_launch_paths "c" "aarch64" (by decide)

/-- C6, counterexample to the unrestricted claim: a container directory with
a leading space.  str trim strips it from the jar argument, so the second
argument is not the launcher-jar path under the container directory. -/
theorem c6_counterexample :
    (arguments " c" "aarch64")[1]? =
      some "c/plugins/org.eclipse.equinox.launcher_1.6.700.v20231214-2017.jar" ∧
    ¬ (arguments " c" "aarch64")[1]? = some (pathJoin " c" LAUNCHER_JAR) := by
  constructor
  · decide
  · decide

/-- C7: when the launcher-jar marker is absent and the detail page's download
link matches, fetch_server_binary succeeds, every server-archive entry is
unpacked under the container directory, and version.txt in the container
directory holds exactly the resolved version string. -/
theorem c7_install_writes_version_marker (jdtls_version container_dir arch b : String)
    (env : InstallEnv) (fs : FS)
    (hjar : (if fs.pathExists (pathJoin container_dir JAVA_HOME) then fs
             else fs.addPaths (env.jreArchivePaths.map (pathJoin container_dir))).pathExists
              (pathJoin container_dir LAUNCHER_JAR) = false)
    (hlink : env.buildLink = some b) :
    (fetch_server_binary jdtls_version container_dir arch env fs).result =
      RustResult.ok
        { path := java container_dir
          arguments := arguments container_dir arch
          env := none } ∧
    (fetch_server_binary jdtls_version container_dir arch env fs).fs.readFile?
        (pathJoin container_dir "version.txt") = some jdtls_version ∧
    ∀ q ∈ env.serverArchivePaths,
      (fetch_server_binary jdtls_version container_dir arch env fs).fs.pathExists
        (pathJoin container_dir q) = true := by
  unfold fetch_server_binary
  by_cases hjava : fs.pathExists (pathJoin container_dir JAVA_HOME) = true
  · rw [if_pos hjava] at hjar
    simp only [hjava, hjar, hlink, if_true, if_false, Bool.false_eq_true]
    refine ⟨trivial, readFile?_writeFile _ _ _, ?_⟩
    intro q hq
    apply pathExists_of_mem
    dsimp only [FS.writeFile, FS.addPaths]
    exact List.mem_append_left _ (List.mem_append_right _ (List.mem_map_of_mem _ hq))
  · rw [if_neg hjava] at hjar
    simp only [Bool.not_eq_true] at hjava
    simp only [hjava, hjar, hlink, if_true, if_false, Bool.false_eq_true]
    refine ⟨trivial, readFile?_writeFile _ _ _, ?_⟩
    intro q hq
    apply pathExists_of_mem
    dsimp only [FS.writeFile, FS.addPaths]
    exact List.mem_append_left _ (List.mem_append_right _ (List.mem_map_of_mem _ hq))

theorem c7_witness :
    (fetch_server_binary "1.29.0" "c" "aarch64" ⟨some "x", [], ["plugins/a.jar"]⟩
        ⟨[], []⟩).result =
      RustResult.ok
        { path := java "c"
          arguments := arguments "c" "aarch64"
          env := none } ∧
    (fetch_server_binary "1.29.0" "c" "aarch64" ⟨some "x", [], ["plugins/a.jar"]⟩
        ⟨[], []⟩).fs.readFile? (pathJoin "c" "version.txt") = some "1.29.0" ∧
    ∀ q ∈ (⟨some "x", [], ["plugins/a.jar"]⟩ : InstallEnv).serverArchivePaths,
      (fetch_server_binary "1.29.0" "c" "aarch64" ⟨some "x", [], ["plugins/a.jar"]⟩
        ⟨[], []⟩).fs.pathExists (pathJoin "c" q) = true :=
  c7_install_writes_version_marker "1.29.0" "c" "aarch64" "x"
    ⟨some "x", [], ["plugins/a.jar"]⟩ ⟨[], []⟩ (by decide) rfl

/-- C8: the launch-argument builder is a deterministic function of the
container directory and the architecture — equal inputs give vectors equal
element for element — and the vector always has the fixed length 16, built
in a fixed order with no unordered iteration. -/
theorem c8_arguments_deterministic (d1 d2 a1 a2 : String) (hd : d1 = d2) (ha : a1 = a2) :
    arguments d1 a1 = arguments d2 a2 ∧ (arguments d1 a1).length = 16 := by
  subst hd
  subst ha
  exact ⟨rfl, rfl⟩

theorem c8_witness :
    arguments "c" "aarch64" = arguments "c" "aarch64" ∧
    (arguments "c" "aarch64").length = 16 :=
  c8_arguments_deterministic "c" "c" "aarch64" "aarch64" rfl rfl

/-- C9: cached_server_binary returns Some launch spec for every container
directory and every on-disk state — it never consults the filesystem, so it
never returns None to signal a missing installation. -/
theorem c9_cached_always_some (container_dir arch : String) (fs fs' : FS) :
    cached_server_binary container_dir arch fs = cached_server_binary container_dir arch fs' ∧
    (cached_server_binary container_dir arch fs).isSome = true :=
  ⟨rfl, rfl⟩

/-- C10: for components of at most three decimal digits the padded prefix
together with the hyphen is exactly ten characters, and slicing the key from
index 10 recovers exactly the dotted version string. -/
theorem c10_key_slice_roundtrip (M m p : Nat) (hM : M ≤ 999) (hm : m ≤ 999) (hp : p ≤ 999) :
    (pad3 (toString M) ++ pad3 (toString m) ++ pad3 (toString p) ++ "-").length = 10 ∧
    strDrop (mkKey M m p) 10 = dotted M m p := by
  constructor
  · have hlen : ∀ n : Nat, n ≤ 999 → (pad3 (toString n)).length = 3 := by
      intro n h
      show (pad3 (toString n)).data.length = 3
      rw [pad3_digits n h]
      rfl
    rw [String.length_append, String.length_append, String.length_append,
      hlen M hM, hlen m hm, hlen p hp]
    rfl
  · exact strDrop_mkKey M m p hM hm hp

theorem c10_witness :
    (pad3 (toString 1) ++ pad3 (toString 29) ++ pad3 (toString 0) ++ "-").length = 10 ∧
    strDrop (mkKey 1 29 0) 10 = dotted 1 29 0 :=
  c10_key_slice_roundtrip 1 29 0 (by decide) (by decide) (by decide)
